import Mathlib

/-!
Verification of the Merkle-tree implementation in `src/merkletree.py` against
its natural-language specification.  Python byte/str values are modelled as
lists of naturals; the digest delegate takes an `Option Bytes` so that the
Python value `None` (which `contains` tests for, and which the delegate could
in principle receive) is representable.
-/

namespace MerklePy

/-- Byte strings (Python `bytes`/`str` digest values). -/
abbrev Bytes := List Nat

/-- The caller-supplied digest delegate.  In the source it is a single Python
function applied to items, to concatenations of digests, and (in
`request_proof`) possibly to `None`; `none` models the Python `None`. -/
abbrev DigestFn := Option Bytes → Bytes

/-- `MerkleTree.__Node`: a stored digest plus optional left/right children. -/
inductive Node : Type where
  | mk (value : Bytes) (left : Option Node) (right : Option Node)

/-- The `value` property of `__Node`. -/
def Node.value : Node → Bytes
  | .mk v _ _ => v

/-- The `left` field of `__Node`. -/
def Node.left : Node → Option Node
  | .mk _ l _ => l

/-- The `right` field of `__Node`. -/
def Node.right : Node → Option Node
  | .mk _ _ r => r

theorem Node.eta : ∀ n : Node, Node.mk n.value n.left n.right = n
  | .mk _ _ _ => rfl

/-- The pairing loop of `MerkleTree.__build_root`:
`for i in range(0, size - 1, 2)` builds, for each adjacent pair, a node of
digest `digest(c[i].value + c[i+1].value)` with the pair as children.  Since
`size` is the length before the even-size append, the loop pairs greedily and
never touches a lone trailing element, which this rendering drops. -/
def pairUp (digest : DigestFn) : List Node → List Node
  | a :: b :: rest =>
      Node.mk (digest (some (a.value ++ b.value))) (some a) (some b) :: pairUp digest rest
  | _ => []

theorem pairUp_length (digest : DigestFn) :
    ∀ l : List Node, (pairUp digest l).length = l.length / 2
  | [] => by simp [pairUp]
  | [_] => by simp [pairUp]
  | _ :: _ :: rest => by
      simp [pairUp, pairUp_length digest rest]
      omega

/-- `MerkleTree.__build_root`: returns the single node of a singleton level;
otherwise, when the level size is even it appends a fresh node with the same
digest and children as the last (`collection.append(self.__Node(...))` under
`size % 2 == 0`), pairs adjacent nodes, and recurses.  `none` models the
`IndexError` the Python would raise on an empty collection (never reached
from `build_root`). -/
def build_root_aux (digest : DigestFn) : List Node → Option Node
  | [] => none
  | [n] => some n
  | a :: b :: rest =>
      let collection := a :: b :: rest
      let last := collection.getLastD a
      let collection :=
        if collection.length % 2 = 0 then
          collection ++ [Node.mk last.value last.left last.right]
        else collection
      build_root_aux digest (pairUp digest collection)
  termination_by l => l.length
  decreasing_by
    simp only [pairUp_length]
    split
    · simp
      omega
    · simp
      omega

/-- `MerkleTree.build_root`: asserts the collection non-empty (`none` models
the failed assert), appends the last raw item when the item count is odd,
maps every item to a leaf node of digest `digest(x)`, and calls
`__build_root`. -/
def build_root (digest : DigestFn) (iterable : List Bytes) : Option Node :=
  let collection := iterable
  if collection.length = 0 then none
  else
    let collection :=
      if collection.length % 2 ≠ 0 then collection ++ [collection.getLastD []]
      else collection
    build_root_aux digest (collection.map (fun x => Node.mk (digest (some x)) none none))

/-- `MerkleTree`: the digest delegate plus the root built at construction. -/
structure MerkleTree where
  digest : DigestFn
  root : Option Node

/-- `MerkleTree.__init__`: builds the root from the iterable; a failed
construction (empty input) produces no tree object, modelled by `none`. -/
def MerkleTree.build (digest : DigestFn) (iterable : List Bytes) : Option MerkleTree :=
  match build_root digest iterable with
  | none => none
  | some r => some ⟨digest, some r⟩

/-- The root's digest, when a root exists. -/
def rootValue (t : MerkleTree) : Option Bytes :=
  t.root.map Node.value

/-- `MerkleTree.__find`: left-first depth-first search for a node whose stored
digest equals `value`; returns the first such node, else `None`. -/
def find : Option Node → Bytes → Option Node
  | none, _ => none
  | some (Node.mk v l r), value =>
      if v = value then some (Node.mk v l r)
      else (find l value).or (find r value)

/-- Whether some node of the (sub)tree stores the digest `target`. -/
def occurs : Option Node → Bytes → Bool
  | none, _ => false
  | some (Node.mk v l r), target =>
      (v = target : Bool) || occurs l target || occurs r target

/-- All nodes of the (sub)tree in left-first depth-first (preorder) order. -/
def nodesOf : Option Node → List Node
  | none => []
  | some (Node.mk v l r) => Node.mk v l r :: (nodesOf l ++ nodesOf r)

/-- `MerkleTree.contains`: `False` when the query is `None` or the root is
`None`; otherwise digests the query and searches with `__find`. -/
def MerkleTree.contains (t : MerkleTree) (value : Option Bytes) : Bool :=
  match value with
  | none => false
  | some v =>
      match t.root with
      | none => false
      | some _ => (find t.root (t.digest (some v))).isSome

/-- Which child of the shared parent a proof entry's sibling is. -/
inductive Side : Type where
  | left
  | right
deriving DecidableEq

/-- The exceptions `MerkleTree.request_proof` can raise: the explicit
`Exception` for an absent digest, and the `IndexError` from reading
`proof[1]`. -/
inductive PyError : Type where
  | notFound
  | indexError
deriving DecidableEq

/-- The digest of an optional node; `[]` is an unreachable default, since the
built trees give every internal node two children. -/
def valueOf : Option Node → Bytes
  | none => []
  | some n => n.value

/-- Modelled from the spec: the helper `__build_valid_proof` that
`MerkleTree.request_proof` calls is absent from the source.  Following the
Proof Generator contract, this finds the left-first path to the first node
storing `target` and returns, from the leaf's immediate sibling upward, the
`(side, sibling digest)` entries, where `side` says whether the sibling is
the left or the right child of the shared parent.  Entries carry the side
first to match how `request_proof` consumes them (`proof[1][0]`), with
`Side.left` playing the falsy value.  `none` when `target` occurs nowhere. -/
def build_valid_proof : Option Node → Bytes → Option (List (Side × Bytes))
  | none, _ => none
  | some (Node.mk v l r), target =>
      if v = target then some []
      else
        match build_valid_proof l target with
        | some p => some (p ++ [(Side.right, valueOf r)])
        | none =>
            match build_valid_proof r target with
            | some p => some (p ++ [(Side.left, valueOf l)])
            | none => none

/-- `MerkleTree.request_proof` (with `__build_valid_proof` modelled from the
spec, see `build_valid_proof`): digests the query, raises the not-found
`Exception` when `__find` misses, collects the proof, and when the proof is
non-empty executes `proof.insert(0, (0 if proof[1][0] else 1, hashed_value))`
— reading `proof[1]` raises `IndexError` on a one-entry proof, and the
inserted first component flips the second entry's side (`Side.left` being
the falsy encoding of `0`). -/
def MerkleTree.request_proof (t : MerkleTree) (value : Option Bytes) :
    Except PyError (List (Side × Bytes)) :=
  let hashed := t.digest value
  if (find t.root hashed).isSome then
    let proof := (build_valid_proof t.root hashed).getD []
    if proof.length ≠ 0 then
      match proof[1]? with
      | none => .error .indexError
      | some e =>
          .ok ((if e.1 = Side.right then Side.left else Side.right, hashed) :: proof)
    else .ok proof
  else .error .notFound

/-- Modelled from the spec: the Proof Verifier (`verify`) is absent from the
source.  Starting from the item digest, each `(side, siblingDigest)` entry is
folded in order — `digestFn(siblingDigest ++ acc)` when the sibling is the
left child, `digestFn(acc ++ siblingDigest)` otherwise — and the result is
compared with the expected root. -/
def verify (digest : DigestFn) (itemDigest : Bytes) (proof : List (Side × Bytes))
    (expectedRoot : Bytes) : Bool :=
  (proof.foldl
    (fun acc e =>
      match e.1 with
      | Side.left => digest (some (e.2 ++ acc))
      | Side.right => digest (some (acc ++ e.2)))
    itemDigest) = expectedRoot

/-- The structural invariant of the spec's data model: a node is a leaf iff
both children are absent (so no single-child nodes), and every internal
node's digest is the digest of the children's digests concatenated left then
right. -/
def wellFormed (digest : DigestFn) : Node → Bool
  | .mk _ none none => true
  | .mk v (some l) (some r) =>
      (v = digest (some (l.value ++ r.value)) : Bool)
        && wellFormed digest l && wellFormed digest r
  | _ => false

/-- The spec's fold, written from the spec's words for comparison with
`build_root`: at every level an odd node count duplicates the last digest,
then each adjacent pair `(a, b)` is combined as `digestFn(a ++ b)`, until one
digest remains.  A lone element is therefore folded with itself. -/
def specLevel (digest : DigestFn) : List Bytes → List Bytes
  | [] => []
  | [x] => [digest (some (x ++ x))]
  | x :: y :: rest => digest (some (x ++ y)) :: specLevel digest rest

theorem specLevel_length (digest : DigestFn) :
    ∀ l : List Bytes, (specLevel digest l).length = (l.length + 1) / 2
  | [] => by simp [specLevel]
  | [_] => by simp [specLevel]
  | _ :: _ :: rest => by
      simp [specLevel, specLevel_length digest rest]
      omega

/-- The spec's root over a level of digests: fold levels until one remains. -/
def specRootOf (digest : DigestFn) : List Bytes → Option Bytes
  | [] => none
  | [x] => some x
  | x :: y :: rest => specRootOf digest (specLevel digest (x :: y :: rest))
  termination_by l => l.length
  decreasing_by
    simp [specLevel_length]
    omega

/-- The spec's builder: leaf digests, then the fold of `specRootOf`. -/
def specBuild (digest : DigestFn) (items : List Bytes) : Option Bytes :=
  specRootOf digest (items.map (fun x => digest (some x)))

/-- The identity digest delegate on byte strings, a legitimate instance of the
caller-supplied digest function; `[]` on `None`. -/
def idD : DigestFn
  | some b => b
  | none => []

/-- Claim C1: for every non-empty item collection and digest function, the
built tree contains every item of the collection.  Refuted by the code: with
the identity digest and the five items `[0]..[4]`, the item `[4]` is in the
collection, yet `contains` returns `false` — the interior fold level of odd
size 3 drops its last node, so the leaves for `[4]` are unreachable from the
root. -/
theorem contains_misses_dropped_leaf :
    ([4] ∈ ([[0], [1], [2], [3], [4]] : List Bytes)) ∧
      (MerkleTree.build idD [[0], [1], [2], [3], [4]]).map
          (fun t => t.contains (some [4])) = some false := by
  refine ⟨by simp, ?_⟩
  simp [MerkleTree.build, build_root, build_root_aux, pairUp, MerkleTree.contains,
    find, idD, Option.or, rootValue, Node.value, Node.left, Node.right]

/-- Claim C2: the claim that every fold level of odd node count duplicates its
last node so pairing always succeeds is refuted by the code: on the five
items `[0]..[4]` (six leaves after item-level padding, hence an interior
level of three nodes) the code's root is `[0,1,2,3]` — the third interior
node is dropped, not duplicated — while the spec's fold yields
`[0,1,2,3,4,4,4,4]`. -/
theorem build_drops_last_node_of_odd_level :
    (MerkleTree.build idD [[0], [1], [2], [3], [4]]).map rootValue
        = some (some [0, 1, 2, 3]) ∧
      specBuild idD [[0], [1], [2], [3], [4]] = some [0, 1, 2, 3, 4, 4, 4, 4] ∧
      ([0, 1, 2, 3] : Bytes) ≠ [0, 1, 2, 3, 4, 4, 4, 4] := by
  refine ⟨?_, ?_, by simp⟩
  · simp [MerkleTree.build, build_root, build_root_aux, pairUp, rootValue,
      idD, Node.value, Node.left, Node.right]
  · simp [specBuild, specRootOf, specLevel, idD]

/-- Claim C3 counterexample: a single-item input does not yield a root equal
to the item's leaf digest: with the identity digest and the single item
`[0]`, the leaf digest is `[0]` but the built root digest is `[0, 0]`,
because `build_root` pads the one-item collection to two copies and folds
once. -/
theorem singleton_root_ne_leaf_digest :
    (MerkleTree.build idD [[0]]).map rootValue ≠ some (some (idD (some [0]))) := by
  simp [MerkleTree.build, build_root, build_root_aux, pairUp, rootValue,
    idD, Node.value, Node.left, Node.right]

/-- Claim C3 as amended: for every digest function and item `x`, the tree
built from `[x]` has root digest `D(D(x) ++ D(x))` — the singleton input is
padded to `[x, x]` and folded once, rather than returning the leaf digest
unfolded. -/
theorem singleton_root_eq_double_digest (digest : DigestFn) (x : Bytes) :
    (MerkleTree.build digest [x]).map rootValue
      = some (some (digest (some (digest (some x) ++ digest (some x))))) := by
  simp [MerkleTree.build, build_root, build_root_aux, pairUp, rootValue,
    Node.value, Node.left, Node.right]

/-- Claim C4: the claim that `request_proof` returns one `(sibling, side)`
entry per fold level above the leaf is refuted: on the three items
`[0],[1],[2]` (leaf depth 2), the returned proof has three entries, its
first entry carrying the item's own digest `[2]` rather than a sibling —
`request_proof` inserts `(0 if proof[1][0] else 1, hashed_value)` in front
of the sibling path. -/
theorem request_proof_extra_entry :
    (MerkleTree.build idD [[0], [1], [2]]).map (fun t => t.request_proof (some [2]))
        = some (Except.ok
            [(Side.right, [2]), (Side.right, [2]), (Side.left, [0, 1])]) ∧
      ¬ ([(Side.right, ([2] : Bytes)), (Side.right, [2]),
          (Side.left, [0, 1])].length = 2) := by
  refine ⟨?_, by simp⟩
  simp [MerkleTree.build, build_root, build_root_aux, pairUp,
    MerkleTree.request_proof, build_valid_proof, valueOf, find, idD,
    Option.or, Node.value, Node.left, Node.right]

/-- Claim C5: the round trip `verify(D(x), proveMembership(x), root) == true`
is refuted: on the three items `[0],[1],[2]` with the identity digest, the
proof `request_proof` returns for `[2]` fails verification against the
built root `[0,1,2,2]` (the extra leading entry makes the recomputed root
`[0,1,2,2,2]`). -/
theorem verify_of_request_proof_fails :
    (MerkleTree.build idD [[0], [1], [2]]).map (fun t =>
        match t.request_proof (some [2]) with
        | .ok p => verify idD (idD (some [2])) p ((rootValue t).getD [])
        | .error _ => false) = some false := by
  simp [MerkleTree.build, build_root, build_root_aux, pairUp,
    MerkleTree.request_proof, build_valid_proof, valueOf, find, idD,
    Option.or, Node.value, Node.left, Node.right, verify, rootValue]

/-- Claim C6: the claim that `request_proof` fails exactly on absent digests
and returns a proof on present ones is refuted: on the two items `[0],[1]`
the item `[0]` is present (`contains` is `true`) yet `request_proof` raises
`IndexError` — the sibling path has exactly one entry and the insert reads
`proof[1]`.  An absent digest `[7]` does raise the not-found exception. -/
theorem request_proof_index_error_on_present_item :
    (MerkleTree.build idD [[0], [1]]).map (fun t => t.contains (some [0]))
        = some true ∧
      (MerkleTree.build idD [[0], [1]]).map (fun t => t.request_proof (some [0]))
        = some (Except.error PyError.indexError) ∧
      (MerkleTree.build idD [[0], [1]]).map (fun t => t.request_proof (some [7]))
        = some (Except.error PyError.notFound) := by
  refine ⟨?_, ?_, ?_⟩ <;>
    simp [MerkleTree.build, build_root, build_root_aux, pairUp,
      MerkleTree.contains, MerkleTree.request_proof, build_valid_proof,
      valueOf, find, idD, Option.or, Node.value, Node.left, Node.right]

theorem getLastD_mem : ∀ (l : List Node) (d : Node), l ≠ [] → l.getLastD d ∈ l
  | [], _, h => absurd rfl h
  | [_], _, _ => by simp
  | a :: b :: rest, d, _ => by
      rw [List.getLastD_cons]
      exact List.mem_cons_of_mem a (getLastD_mem (b :: rest) a (by simp))

theorem pairUp_ne_nil (digest : DigestFn) (l : List Node) (h : 2 ≤ l.length) :
    pairUp digest l ≠ [] := by
  intro hn
  have hl := pairUp_length digest l
  rw [hn] at hl
  simp at hl
  omega

theorem build_root_aux_isSome (digest : DigestFn) :
    ∀ l : List Node, l ≠ [] → (build_root_aux digest l).isSome = true
  | [], h => absurd rfl h
  | [n], _ => by simp [build_root_aux]
  | a :: b :: rest, _ => by
      simp only [build_root_aux]
      refine build_root_aux_isSome digest _ (pairUp_ne_nil digest _ ?_)
      split <;> simp
  termination_by l => l.length
  decreasing_by
    simp only [pairUp_length]
    split
    · simp
      omega
    · simp
      omega

theorem build_root_isSome (digest : DigestFn) (items : List Bytes) (h : items ≠ []) :
    (build_root digest items).isSome = true := by
  have hlen : ¬ items.length = 0 := by simpa using h
  rw [build_root]
  simp only [hlen, if_false]
  refine build_root_aux_isSome digest _ ?_
  simp only [ne_eq, List.map_eq_nil_iff]
  split <;> simp [h]

theorem pairUp_wellFormed (digest : DigestFn) :
    ∀ l : List Node, (∀ n ∈ l, wellFormed digest n = true) →
      ∀ n ∈ pairUp digest l, wellFormed digest n = true
  | [], _ => by simp [pairUp]
  | [_], _ => by simp [pairUp]
  | a :: b :: rest, h => by
      intro n hn
      rw [pairUp] at hn
      rcases List.mem_cons.mp hn with h1 | h2
      · subst h1
        simp [wellFormed, h a (by simp), h b (by simp)]
      · exact pairUp_wellFormed digest rest (fun m hm => h m (by simp [hm])) n h2

theorem build_root_aux_wellFormed (digest : DigestFn) :
    ∀ l : List Node, (∀ n ∈ l, wellFormed digest n = true) →
      ∀ r, build_root_aux digest l = some r → wellFormed digest r = true
  | [], _, r, hr => by simp [build_root_aux] at hr
  | [n], hl, r, hr => by
      simp [build_root_aux] at hr
      exact hr ▸ hl n (by simp)
  | a :: b :: rest, hl, r, hr => by
      simp only [build_root_aux] at hr
      refine build_root_aux_wellFormed digest _ ?_ r hr
      refine pairUp_wellFormed digest _ ?_
      intro n hn
      by_cases he : (a :: b :: rest).length % 2 = 0
      · rw [if_pos he] at hn
        rcases List.mem_append.mp hn with h1 | h2
        · exact hl n h1
        · simp only [List.mem_singleton] at h2
          subst h2
          rw [Node.eta]
          exact hl _ (getLastD_mem _ a (by simp))
      · rw [if_neg he] at hn
        exact hl n hn
  termination_by l => l.length
  decreasing_by
    simp only [pairUp_length]
    split
    · simp
      omega
    · simp
      omega

theorem find_isSome_eq_occurs : ∀ (t : Option Node) (v : Bytes),
    (find t v).isSome = occurs t v
  | none, _ => by simp [find, occurs]
  | some (Node.mk val l r), v => by
      rw [find, occurs]
      by_cases h : val = v
      · simp [h]
      · rw [if_neg h, ← find_isSome_eq_occurs l v, ← find_isSome_eq_occurs r v]
        have hd : (val = v : Bool) = false := by simp [h]
        rw [hd]
        cases find l v <;> cases find r v <;> simp [Option.or]

theorem find_eq_preorder_first : ∀ (t : Option Node) (v : Bytes),
    find t v = (nodesOf t).find? (fun n => n.value == v)
  | none, _ => by simp [find, nodesOf]
  | some (Node.mk val l r), v => by
      rw [find, nodesOf]
      by_cases h : val = v
      · simp [List.find?, h, Node.value]
      · rw [if_neg h, List.find?_cons_of_neg, List.find?_append,
          ← find_eq_preorder_first l v, ← find_eq_preorder_first r v,
          Option.or_eq_orElse]
        simp [Node.value, h]

/-- Claim C7: construction fails exactly on the empty collection, a failed
construction yields no tree value, and every non-empty collection builds a
tree with a non-null root. -/
theorem build_empty_iff_and_root_isSome (digest : DigestFn) (items : List Bytes) :
    (MerkleTree.build digest items = none ↔ items = []) ∧
      (items ≠ [] → ∃ t, MerkleTree.build digest items = some t ∧ t.root.isSome = true) := by
  have hmain : ∀ _ : items ≠ [],
      ∃ t, MerkleTree.build digest items = some t ∧ t.root.isSome = true := by
    intro hne
    have hs := build_root_isSome digest items hne
    rcases Option.isSome_iff_exists.mp hs with ⟨r, hr⟩
    exact ⟨⟨digest, some r⟩, by simp [MerkleTree.build, hr], rfl⟩
  refine ⟨⟨?_, ?_⟩, hmain⟩
  · intro h
    by_contra hne
    rcases hmain hne with ⟨t, ht, _⟩
    rw [h] at ht
    exact Option.noConfusion ht
  · intro h
    subst h
    simp [MerkleTree.build, build_root]

theorem build_empty_iff_and_root_isSome_witness :
    (([[0]] : List Bytes) ≠ []) ∧
      ∃ t, MerkleTree.build idD [[0]] = some t ∧ t.root.isSome = true :=
  ⟨by simp, (build_empty_iff_and_root_isSome idD [[0]]).2 (by simp)⟩

/-- A tree built for claims C8 and C9: the two items `[0]`, `[1]` under the
identity digest. -/
def exTree2 : MerkleTree :=
  ⟨idD, some (Node.mk [0, 1]
    (some (Node.mk [0] none none)) (some (Node.mk [1] none none)))⟩

/-- Claim C8: on a built tree, `contains` answers `true` exactly when the
query's digest is stored by some node of the tree (internal nodes included),
and the underlying search returns the first match of a left-first
depth-first (preorder) traversal; consequently a query whose digest matches
no node digest yields `false`. -/
theorem contains_iff_occurs_and_find_first (digest : DigestFn) (items : List Bytes)
    (t : MerkleTree) (h : MerkleTree.build digest items = some t) (v : Bytes) :
    (t.contains (some v) = true ↔ occurs t.root (digest (some v)) = true) ∧
      find t.root (digest (some v))
        = (nodesOf t.root).find? (fun n => n.value == digest (some v)) := by
  have hshape : t.digest = digest ∧ ∃ r, t.root = some r := by
    rw [MerkleTree.build] at h
    rcases hb : build_root digest items with _ | r <;> rw [hb] at h
    · exact Option.noConfusion h
    · cases h
      exact ⟨rfl, r, rfl⟩
  rcases hshape with ⟨hd, r, hr⟩
  refine ⟨?_, find_eq_preorder_first t.root (digest (some v))⟩
  rw [MerkleTree.contains]
  simp only [hr, hd, find_isSome_eq_occurs]

theorem contains_iff_occurs_and_find_first_witness :
    ((exTree2.contains (some [0]) = true ↔
        occurs exTree2.root (idD (some [0])) = true) ∧
      find exTree2.root (idD (some [0]))
        = (nodesOf exTree2.root).find? (fun n => n.value == idD (some [0]))) :=
  contains_iff_occurs_and_find_first idD [[0], [1]] exTree2
    (by simp [MerkleTree.build, build_root, build_root_aux, pairUp, exTree2,
      idD, Node.value, Node.left, Node.right])
    [0]

/-- Claim C9: every node reachable from the root of a built tree is a leaf
exactly when both children are absent, and every internal node stores the
digest of its children's digests concatenated left then right
(`wellFormed`). -/
theorem build_wellFormed (digest : DigestFn) (items : List Bytes) (t : MerkleTree)
    (h : MerkleTree.build digest items = some t) (r : Node) (hr : t.root = some r) :
    wellFormed digest r = true := by
  rw [MerkleTree.build] at h
  rcases hb : build_root digest items with _ | r0 <;> rw [hb] at h
  · exact Option.noConfusion h
  · cases h
    simp only [MerkleTree.root] at hr
    cases hr
    rw [build_root] at hb
    by_cases hlen : items.length = 0
    · rw [if_pos hlen] at hb
      exact Option.noConfusion hb
    · rw [if_neg hlen] at hb
      refine build_root_aux_wellFormed digest _ ?_ r hb
      intro n hn
      rcases List.mem_map.mp hn with ⟨x, _, hx⟩
      rw [← hx]
      simp [wellFormed]

theorem build_wellFormed_witness :
    wellFormed idD (Node.mk [0, 1]
      (some (Node.mk [0] none none)) (some (Node.mk [1] none none))) = true :=
  build_wellFormed idD [[0], [1]] exTree2
    (by simp [MerkleTree.build, build_root, build_root_aux, pairUp, exTree2,
      idD, Node.value, Node.left, Node.right])
    (Node.mk [0, 1] (some (Node.mk [0] none none)) (some (Node.mk [1] none none)))
    rfl

/-- Claim C10: on every built tree, a `None` query returns `False`
unconditionally — the digest delegate is never applied to it — even when
some node of the tree stores exactly the digest the delegate would assign
to `None`. -/
theorem contains_none_false (digest : DigestFn) (items : List Bytes) (t : MerkleTree)
    (_h : MerkleTree.build digest items = some t)
    (_hocc : occurs t.root (digest none) = true) :
    t.contains none = false := rfl

theorem contains_none_false_witness :
    (MerkleTree.mk (fun _ => []) (some (Node.mk []
        (some (Node.mk [] none none)) (some (Node.mk [] none none))))).contains none
      = false :=
  contains_none_false (fun _ => []) [[5]]
    (MerkleTree.mk (fun _ => []) (some (Node.mk []
      (some (Node.mk [] none none)) (some (Node.mk [] none none)))))
    (by simp [MerkleTree.build, build_root, build_root_aux, pairUp,
      Node.value, Node.left, Node.right])
    (by simp [occurs, Node.value])

end MerklePy
